import Mathlib

/-!
Verification development for the typescript-deno-plugin / vscode-deno module
resolution core.

The definitions below are shallow embeddings of the TypeScript sources:
* the `DenoPlugin` language-service wrappers (getCompilationSettings,
  getScriptFileNames, resolveModuleNames, resolveTypeReferenceDirectives,
  getSemanticDiagnostics, getCompletionEntryDetails);
* the `References` navigation handler;
* the Import Map Engine, Cache Path Mapper and Specifier Classifier, which
  are modelled from the specification where the repository source is not
  available.

External collaborators (the host compiler service, `path` helpers,
filesystem probes, `realpath`, the resolver's single-specifier step) are
passed in as function parameters, mirroring the narrow interfaces the
plugin consumes.
-/

namespace VscodeDeno

/-- JS-style `array.map((v, index) => f(index, v))` starting at index `i₀`. -/
def jsMapIdxFrom (f : Nat → α → β) : Nat → List α → List β
  | _, [] => []
  | i, a :: l => f i a :: jsMapIdxFrom f (i + 1) l

/-- JS-style `array.map((v, index) => f(index, v))`. -/
def jsMapIdx (f : Nat → α → β) (l : List α) : List β :=
  jsMapIdxFrom f 0 l

/-- Executable model of JS `String.prototype.startsWith` (and of a
`/^p/` regex test): character-list prefix check. -/
def strStartsWith (s p : String) : Bool :=
  p.data.isPrefixOf s.data

/-- Executable model of JS `String.prototype.endsWith`: character-list
suffix check. -/
def strEndsWith (s p : String) : Bool :=
  p.data.isSuffixOf s.data

/-- Executable model of JS `String.prototype.slice(n)`: drop the first
`n` characters. -/
def strDrop (s : String) (n : Nat) : String :=
  ⟨s.data.drop n⟩

/-- Executable model of JS `String.prototype.length`: character count. -/
def strLength (s : String) : Nat :=
  s.data.length

/-- Configuration snapshot read by every wrapped operation
(`this.configurationManager.config` in the plugin). -/
structure DenoPluginConfig where
  enable : Bool
  import_map : Option String
deriving DecidableEq, Repr

/-- `ResolvedModule` of the core module resolver: the specifier string to
hand back to the host compiler and the local file backing it. -/
structure ResolvedModule where
  module : String
  filepath : String
deriving DecidableEq, Repr

/-- The TypeScript `Extension` enum members used by the plugin. -/
inductive TsExtension where
  | ts
  | tsx
  | dts
  | js
  | jsx
  | json
deriving DecidableEq, Repr

/-- A resolved module as the TypeScript host sees it
(`ts.ResolvedModuleFull`: extension, isExternalLibraryImport,
resolvedFileName). -/
structure TsResolvedModule where
  extension : TsExtension
  isExternalLibraryImport : Bool
  resolvedFileName : String
deriving DecidableEq, Repr

/-- The containing-file normalization performed by both resolution wrappers:
apply `project.realpath` when available, then replace an `untitled:`
(unsaved/virtual document) path by the project root directory. -/
def denoRealContainingFile (projectRoot : String) (realpath : Option (String → String))
    (containingFile : String) : String :=
  let r := match realpath with
    | some f => f containingFile
    | none => containingFile
  if strStartsWith r "untitled:" then projectRoot else r

/-- Modelled from the spec: `ModuleResolver.resolveModules` (the module
resolver implementation is not among the provided sources). Per §4.4 it
produces one output per input specifier, order preserved; the
per-specifier algorithm (classify, relative probe, cache lookup, the
map of imports) is abstracted as `resolveOne containingFile specifier`. -/
def resolveModules (resolveOne : String → String → Option ResolvedModule)
    (containingFile : String) (moduleNames : List String) : List (Option ResolvedModule) :=
  moduleNames.map (resolveOne containingFile)

/-- The wrapped `languageServiceHost.resolveModuleNames` installed by the
plugin. `hostResolveModuleNames` is the host's original implementation,
`resolveOne` the Deno resolver's single-specifier step, `isAbsolute` and
`pathExistsSync` the path/filesystem probes. -/
def wrappedResolveModuleNames (cfg : DenoPluginConfig)
    (hostResolveModuleNames : List String → String → List (Option TsResolvedModule))
    (resolveOne : String → String → Option ResolvedModule)
    (isAbsolute : String → Bool) (pathExistsSync : String → Bool)
    (projectRoot : String) (realpath : Option (String → String))
    (moduleNames : List String) (containingFile : String) : List (Option TsResolvedModule) :=
  if cfg.enable = false then hostResolveModuleNames moduleNames containingFile
  else
    let realContainingFile := denoRealContainingFile projectRoot realpath containingFile
    let resolvedModules := resolveModules resolveOne realContainingFile moduleNames
    let hostInput := jsMapIdx (fun index v =>
      match v with
      | some m => m.module
      | none => (moduleNames.get? index).getD "") resolvedModules
    jsMapIdx (fun index v =>
      match v with
      | some _ => v
      | none =>
        match (resolvedModules.get? index).bind id with
        | some cacheModule =>
          if isAbsolute cacheModule.filepath && pathExistsSync cacheModule.filepath then
            some { extension := TsExtension.js
                   isExternalLibraryImport := false
                   resolvedFileName := cacheModule.filepath }
          else v
        | none => v) (hostResolveModuleNames hostInput containingFile)

/-- The wrapped `languageServiceHost.resolveTypeReferenceDirectives`
installed by the plugin. The host's directive results are opaque to the
wrapper, hence the type parameter `β`. Note the source filters out
unresolved resolutions (`.filter(v => v)`) before calling the host. -/
def wrappedResolveTypeReferenceDirectives {β : Type} (cfg : DenoPluginConfig)
    (hostResolveTypeReferenceDirectives : List String → String → List (Option β))
    (resolveOne : String → String → Option ResolvedModule)
    (projectRoot : String) (realpath : Option (String → String))
    (typeDirectiveNames : List String) (containingFile : String) : List (Option β) :=
  if cfg.enable = false then hostResolveTypeReferenceDirectives typeDirectiveNames containingFile
  else
    let realContainingFile := denoRealContainingFile projectRoot realpath containingFile
    let resolvedModules :=
      (resolveModules resolveOne realContainingFile typeDirectiveNames).filterMap id
    hostResolveTypeReferenceDirectives (resolvedModules.map (fun v => v.module)) containingFile

/-- The per-index result the enabled `resolveModuleNames` wrapper computes
for one specifier, assuming the host resolves each entry independently:
resolve with the Deno resolver, hand the rewritten (or original) name to
the host, and fall back to the local cache file when the host fails but
the resolver found an absolute, existing cache path. -/
def denoResolveOneAligned (cfg : DenoPluginConfig)
    (hostOne : String → String → Option TsResolvedModule)
    (resolveOne : String → String → Option ResolvedModule)
    (isAbsolute : String → Bool) (pathExistsSync : String → Bool)
    (projectRoot : String) (realpath : Option (String → String))
    (containingFile : String) (name : String) : Option TsResolvedModule :=
  if cfg.enable = false then hostOne containingFile name
  else
    let realContainingFile := denoRealContainingFile projectRoot realpath containingFile
    let r := resolveOne realContainingFile name
    let hostName := match r with
      | some m => m.module
      | none => name
    match hostOne containingFile hostName with
    | some v => some v
    | none =>
      match r with
      | some cacheModule =>
        if isAbsolute cacheModule.filepath && pathExistsSync cacheModule.filepath then
          some { extension := TsExtension.js
                 isExternalLibraryImport := false
                 resolvedFileName := cacheModule.filepath }
        else none
      | none => none

/-- The TypeScript `JsxEmit` enum members relevant to the plugin. -/
inductive JsxEmit where
  | noJsx
  | preserve
  | react
  | reactNative
deriving DecidableEq, Repr

/-- The TypeScript `ModuleKind` enum members relevant to the plugin. -/
inductive ModuleKind where
  | noModule
  | commonJS
  | es2015
  | esnext
deriving DecidableEq, Repr

/-- The TypeScript `ModuleResolutionKind` enum members. -/
inductive ModuleResolutionKind where
  | classic
  | nodeJs
deriving DecidableEq, Repr

/-- The TypeScript `ScriptTarget` enum members relevant to the plugin. -/
inductive ScriptTarget where
  | es3
  | es5
  | es2015
  | esnext
deriving DecidableEq, Repr

/-- The compiler options the plugin reads or writes. A `none` field means
the option is absent from the configuration object. -/
structure CompilerOptions where
  allowJs : Option Bool := none
  checkJs : Option Bool := none
  strict : Option Bool := none
  esModuleInterop : Option Bool := none
  jsx : Option JsxEmit := none
  module : Option ModuleKind := none
  moduleResolution : Option ModuleResolutionKind := none
  outDir : Option String := none
  resolveJsonModule : Option Bool := none
  sourceMap : Option Bool := none
  stripComments : Option Bool := none
  target : Option ScriptTarget := none
  noEmit : Option Bool := none
  noEmitHelpers : Option Bool := none
deriving DecidableEq, Repr

/-- One field of `deepmerge(target, source)` on scalar-valued options: a
key present in the source overwrites the target's value. -/
def overrideField {α : Type} (base override : Option α) : Option α :=
  match override with
  | some v => some v
  | none => base

/-- `deepmerge` of two compiler-options objects, field by field (every
option the plugin touches is scalar-valued, so the deep merge degenerates
to right-biased overwrite). -/
def mergeOptions (base override : CompilerOptions) : CompilerOptions where
  allowJs := overrideField base.allowJs override.allowJs
  checkJs := overrideField base.checkJs override.checkJs
  strict := overrideField base.strict override.strict
  esModuleInterop := overrideField base.esModuleInterop override.esModuleInterop
  jsx := overrideField base.jsx override.jsx
  module := overrideField base.module override.module
  moduleResolution := overrideField base.moduleResolution override.moduleResolution
  outDir := overrideField base.outDir override.outDir
  resolveJsonModule := overrideField base.resolveJsonModule override.resolveJsonModule
  sourceMap := overrideField base.sourceMap override.sourceMap
  stripComments := overrideField base.stripComments override.stripComments
  target := overrideField base.target override.target
  noEmit := overrideField base.noEmit override.noEmit
  noEmitHelpers := overrideField base.noEmitHelpers override.noEmitHelpers

/-- `DEFAULT_OPTIONS` of the plugin. -/
def DEFAULT_OPTIONS : CompilerOptions where
  allowJs := some true
  checkJs := some false
  strict := some true
  esModuleInterop := some true
  jsx := some JsxEmit.react
  module := some ModuleKind.esnext
  moduleResolution := some ModuleResolutionKind.nodeJs
  outDir := some "$deno$"
  resolveJsonModule := some true
  sourceMap := some true
  stripComments := some true
  target := some ScriptTarget.esnext
  noEmit := some true
  noEmitHelpers := some true

/-- `MUST_OVERWRITE_OPTIONS` of the plugin: options that always overwrite
whatever tsconfig.json specifies. -/
def MUST_OVERWRITE_OPTIONS : CompilerOptions where
  jsx := DEFAULT_OPTIONS.jsx
  module := DEFAULT_OPTIONS.module
  moduleResolution := DEFAULT_OPTIONS.moduleResolution
  resolveJsonModule := DEFAULT_OPTIONS.resolveJsonModule
  strict := DEFAULT_OPTIONS.strict
  noEmit := DEFAULT_OPTIONS.noEmit
  noEmitHelpers := DEFAULT_OPTIONS.noEmitHelpers

/-- The wrapped `languageServiceHost.getCompilationSettings`:
`merge(merge(DEFAULT_OPTIONS, projectConfig), MUST_OVERWRITE_OPTIONS)`
when the plugin is enabled, the project's own settings otherwise. -/
def wrappedGetCompilationSettings (cfg : DenoPluginConfig)
    (projectConfig : CompilerOptions) : CompilerOptions :=
  if cfg.enable = false then projectConfig
  else mergeOptions (mergeOptions DEFAULT_OPTIONS projectConfig) MUST_OVERWRITE_OPTIONS

/-- The wrapped `languageServiceHost.getScriptFileNames`: appends the Deno
declaration file (`getDenoDts()`) when enabled. -/
def wrappedGetScriptFileNames (cfg : DenoPluginConfig)
    (hostScriptFileNames : List String) (denoDts : String) : List String :=
  if cfg.enable = false then hostScriptFileNames
  else hostScriptFileNames ++ [denoDts]

/-- A semantic diagnostic, carrying the TypeScript error code the plugin
filters on. -/
structure Diagnostic where
  code : Nat
  messageText : String
deriving DecidableEq, Repr

/-- `ignoreCodeMapInDeno`: diagnostic codes suppressed under Deno
(2691: import path may not end with `.ts`; 1103: top-level for-await). -/
def ignoreCodeMapInDeno (code : Nat) : Bool :=
  code == 2691 || code == 1103

/-- The wrapped `languageService.getSemanticDiagnostics`: filters out the
Deno-irrelevant diagnostic codes when enabled. -/
def wrappedGetSemanticDiagnostics (cfg : DenoPluginConfig)
    (hostDiagnostics : List Diagnostic) : List Diagnostic :=
  if cfg.enable = false then hostDiagnostics
  else hostDiagnostics.filter (fun v => !(ignoreCodeMapInDeno v.code))

/-- One text change inside a completion code action. -/
structure TextChange where
  newText : String
deriving DecidableEq, Repr

/-- File-level changes of a completion code action. -/
structure FileTextChanges where
  isNewFile : Bool
  textChanges : List TextChange
deriving DecidableEq, Repr

/-- A completion code action. -/
structure CodeAction where
  changes : List FileTextChanges
deriving DecidableEq, Repr

/-- A symbol display part of the completion detail's `source` field. -/
structure SymbolDisplayPart where
  kind : String
  text : String
deriving DecidableEq, Repr

/-- The parts of `ts.CompletionEntryDetails` the plugin touches. The
optional `codeActions` / `source` arrays are modelled as plain lists
(an absent array behaves like an empty one: the source only iterates). -/
structure CompletionEntryDetails where
  kindModifiers : String
  codeActions : List CodeAction
  source : List SymbolDisplayPart
deriving DecidableEq, Repr

/-- The rewrite applied to a non-new-file text change:
`tc.newText = normalizeImportStatement(fileName, tc.newText, logger)`. -/
def transformFileChanges (normalizeImport : String → String → String)
    (fileName : String) (change : FileTextChanges) : FileTextChanges :=
  if change.isNewFile then change
  else { change with
         textChanges := change.textChanges.map
           (fun tc => { tc with newText := normalizeImport fileName tc.newText }) }

/-- The rewrite applied to a `"text"` source part: resolve it against the
directory of `fileName` and, when a Deno cache module exists for the
absolute path, replace the text by the cache module's URL. `dirname`,
`normalizeFilepath`, `posixResolve`, `isAbsolute` and `cacheUrlFor`
embed `path.dirname`, `core/util.normalizeFilepath`,
`path.posix.resolve`, `path.isAbsolute` and `CacheModule.create(...).url.href`. -/
def transformSourcePart (dirname : String → String)
    (normalizeFilepath : String → String)
    (posixResolve : String → String → String)
    (isAbsolute : String → Bool)
    (cacheUrlFor : String → Option String)
    (fileName : String) (source : SymbolDisplayPart) : SymbolDisplayPart :=
  if source.kind == "text" then
    let absoluteFilepath := posixResolve (dirname fileName) (normalizeFilepath source.text)
    if isAbsolute absoluteFilepath then
      match cacheUrlFor absoluteFilepath with
      | some href => { source with text := href }
      | none => source
    else source
  else source

/-- The wrapped `languageService.getCompletionEntryDetails`: when enabled
and the entry is an `export`, rewrites code-action text changes and
`"text"` source parts; otherwise returns the host's details unchanged.
`details` is the host's result for the same arguments. -/
def wrappedGetCompletionEntryDetails (cfg : DenoPluginConfig)
    (normalizeImport : String → String → String)
    (dirname : String → String)
    (normalizeFilepath : String → String)
    (posixResolve : String → String → String)
    (isAbsolute : String → Bool)
    (cacheUrlFor : String → Option String)
    (fileName : String)
    (details : Option CompletionEntryDetails) : Option CompletionEntryDetails :=
  if cfg.enable = false then details
  else
    match details with
    | none => none
    | some d =>
      if d.kindModifiers == "export" then
        some { d with
               codeActions := d.codeActions.map (fun ca =>
                 { ca with changes := ca.changes.map (transformFileChanges normalizeImport fileName) })
               source := d.source.map
                 (transformSourcePart dirname normalizeFilepath posixResolve isAbsolute cacheUrlFor fileName) }
      else some d

/-- An LSP position (zero-based line and character). -/
structure Position where
  line : Nat
  character : Nat
deriving DecidableEq, Repr

/-- An LSP range; `stop` embeds the `end` field. -/
structure DocRange where
  start : Position
  stop : Position
deriving DecidableEq, Repr

/-- An LSP location. -/
structure DocLocation where
  uri : String
  range : DocRange
deriving DecidableEq, Repr

/-- A `@deno-types` pragma hint: the referenced declaration file and the
source span of the path literal inside the comment. -/
structure TypeHintComment where
  filepath : String
  contentRange : DocRange
deriving DecidableEq, Repr

/-- The containment test of the references handler, exactly as written in
`references.ts` (both the line and the character are compared against the
range's endpoints independently). -/
def posInRange (position : Position) (r : DocRange) : Bool :=
  decide (position.line ≥ r.start.line) && decide (position.line ≤ r.stop.line) &&
  decide (position.character ≥ r.start.character) && decide (position.character ≤ r.stop.character)

/-- Model of `URI.file(filepath).toString()`. -/
def fileUri (filepath : String) : String :=
  "file://" ++ filepath

/-- The `onReferences` handler of `References`: for each type-hint comment
whose content range contains the cursor and whose file exists, push a
location anchored at (0,0)-(0,0) of the referenced file's URI.
`pathExists` embeds the (awaited) filesystem probe and
`denoTypesComments` the result of `getDenoTypesHintsFromDocument`. -/
def onReferences (pathExists : String → Bool)
    (denoTypesComments : List TypeHintComment) (position : Position) : List DocLocation :=
  denoTypesComments.foldl (fun locations typeComment =>
    if posInRange position typeComment.contentRange then
      if pathExists typeComment.filepath then
        locations ++ [{ uri := fileUri typeComment.filepath
                        range := { start := ⟨0, 0⟩, stop := ⟨0, 0⟩ } }]
      else locations
    else locations) []

/-- The kind of a module specifier. -/
inductive SpecifierKind where
  | relative
  | absoluteURL
  | bare
deriving DecidableEq, Repr

/-- Modelled from the spec: the Specifier Classifier (§4.1; the classifier
source is not among the provided files). Leading `./` or `../` means
relative; a recognized URL scheme (`http`, `https`, `file`) means
absolute URL; everything else is bare. Pure and total. -/
def classify (specifier : String) : SpecifierKind :=
  if strStartsWith specifier "./" || strStartsWith specifier "../" then SpecifierKind.relative
  else if strStartsWith specifier "http://" || strStartsWith specifier "https://"
      || strStartsWith specifier "file://" then SpecifierKind.absoluteURL
  else SpecifierKind.bare

/-- Modelled from the spec: whether an import-map key matches a specifier
(§4.2; the import map engine source is not among the provided files). A
key matches when it equals the specifier exactly, or when it ends with
`/` and is a prefix of the specifier (path-prefix remapping). -/
def keyMatches (key specifier : String) : Bool :=
  key == specifier || (strEndsWith key "/" && strStartsWith specifier key)

/-- One step of longest-match selection: a matching entry replaces the
current best only when its key is strictly longer, so on equal lengths
the first-declared entry wins. -/
def selectStep {α : Type} (isMatch : String → Bool)
    (best : Option (String × α)) (e : String × α) : Option (String × α) :=
  if isMatch e.1 then
    match best with
    | none => some e
    | some b => if strLength e.1 > strLength b.1 then some e else some b
  else best

/-- Modelled from the spec: select, among the entries whose key satisfies
`isMatch`, the one with the longest key; on equal lengths the
first-declared entry wins (§4.2 and §3 invariants). -/
def selectLongestMatch {α : Type} (isMatch : String → Bool)
    (entries : List (String × α)) : Option (String × α) :=
  entries.foldl (selectStep isMatch) none

/-- Modelled from the spec: apply a matched import-map entry to a
specifier (§4.2). An exact key substitutes its target verbatim; a
`/`-terminated key appends the remainder of the specifier to the target. -/
def applyEntry (e : String × String) (specifier : String) : String :=
  if e.1 == specifier then e.2
  else e.2 ++ (strDrop specifier (strLength e.1))

/-- Modelled from the spec: resolve a specifier against one ordered
prefix→target mapping (§4.2): longest matching key wins, unresolved when
no key matches. -/
def resolveAgainstEntries (entries : List (String × String))
    (specifier : String) : Option String :=
  match selectLongestMatch (fun k => keyMatches k specifier) entries with
  | some e => some (applyEntry e specifier)
  | none => none

/-- An import map: an ordered `imports` mapping and an ordered `scopes`
mapping from scope prefix to its own ordered mapping. -/
structure ImportMap where
  imports : List (String × String)
  scopes : List (String × List (String × String))
deriving DecidableEq, Repr

/-- The empty import map. -/
def emptyImportMap : ImportMap :=
  { imports := [], scopes := [] }

/-- Modelled from the spec: full import-map resolution (§4.2). The scope
whose prefix is the longest prefix of the referrer URL is selected; its
mapping is consulted first, falling back to the top-level `imports`
mapping when no scope matches or the scoped mapping has no match. -/
def resolveWithImportMap (map : ImportMap) (specifier referrerURL : String) : Option String :=
  match selectLongestMatch (fun k => strStartsWith referrerURL k) map.scopes with
  | some scope =>
    match resolveAgainstEntries scope.2 specifier with
    | some r => some r
    | none => resolveAgainstEntries map.imports specifier
  | none => resolveAgainstEntries map.imports specifier

/-- A JSON value, as far as the import-map loader inspects one. -/
inductive Json where
  | null
  | bool (b : Bool)
  | num (n : Int)
  | str (s : String)
  | arr (elements : List Json)
  | obj (fields : List (String × Json))

/-- Whether a JSON value is an object. -/
def Json.isObj : Json → Bool
  | Json.obj _ => true
  | _ => false

/-- Look up a key in a JSON object's field list (first occurrence). -/
def lookupField (fields : List (String × Json)) (key : String) : Option Json :=
  match fields.find? (fun p => p.1 == key) with
  | some p => some p.2
  | none => none

/-- Keep the string-valued entries of a JSON object, in declaration
order. -/
def stringEntries (fields : List (String × Json)) : List (String × String) :=
  fields.filterMap (fun p =>
    match p.2 with
    | Json.str s => some (p.1, s)
    | _ => none)

/-- An optional top-level field that must be an object when present:
`some none` = absent, `some (some m)` = present object, `none` = present
but not an object (shape failure). -/
def asObjField (fields : List (String × Json)) (key : String) :
    Option (Option (List (String × Json))) :=
  match lookupField fields key with
  | none => some none
  | some (Json.obj m) => some (some m)
  | some _ => none

/-- Modelled from the spec: `ImportMap.load` (§4.2; the loader source is
not among the provided files). The argument is the parsed file content:
`none` embeds a missing file or malformed JSON. A top level that is not
an object, or an `imports` / `scopes` key that is present but not an
object, fails the expected shape; every failure yields the empty import
map and the function is total (nothing ever propagates to the caller). -/
def loadImportMap (content : Option Json) : ImportMap :=
  match content with
  | some (Json.obj fields) =>
    match asObjField fields "imports", asObjField fields "scopes" with
    | some importsObj, some scopesObj =>
      { imports := stringEntries (importsObj.getD [])
        scopes := (scopesObj.getD []).filterMap (fun p =>
          match p.2 with
          | Json.obj m => some (p.1, stringEntries m)
          | _ => none) }
    | _, _ => emptyImportMap
  | _ => emptyImportMap

/-- A canonical remote URL as the Cache Path Mapper consumes it: scheme,
authority and path segments (§4.3, §6: nested directories mirror the
authority and the URL path segments). -/
structure RemoteUrl where
  scheme : String
  authority : String
  pathSegments : List String
deriving DecidableEq, Repr

/-- A URL scheme the system recognizes (§4.1). -/
def recognizedScheme (s : String) : Bool :=
  s == "http" || s == "https" || s == "file"

/-- Modelled from the spec: which URLs the Cache Path Mapper accepts as
cacheable (§4.3; the mapper source is not among the provided files): a
recognized scheme and a non-empty authority. -/
def acceptsUrl (u : RemoteUrl) : Bool :=
  recognizedScheme u.scheme && u.authority != ""

/-- Modelled from the spec: `urlToPath` (§4.3, §6). A pure function of the
URL: the cache-root-relative path is the scheme directory, then the
authority directory, then the URL's path segments as nested directories.
No filesystem access. -/
def urlToPath (u : RemoteUrl) : List String :=
  u.scheme :: u.authority :: u.pathSegments

/-- Modelled from the spec: `pathToUrl` (§4.3), the structural inverse of
`urlToPath`. A cache-root-relative path that does not match the expected
derivation structure yields `none`. -/
def pathToUrl (p : List String) : Option RemoteUrl :=
  match p with
  | scheme :: authority :: rest =>
    if recognizedScheme scheme && authority != "" then
      some { scheme := scheme, authority := authority, pathSegments := rest }
    else none
  | _ => none

theorem jsMapIdxFrom_length (f : Nat → α → β) (i : Nat) (l : List α) :
    (jsMapIdxFrom f i l).length = l.length := by
  induction l generalizing i with
  | nil => rfl
  | cons a l ih => simp [jsMapIdxFrom, ih]

theorem jsMapIdx_length (f : Nat → α → β) (l : List α) :
    (jsMapIdx f l).length = l.length :=
  jsMapIdxFrom_length f 0 l

theorem jsMapIdxFrom_get? (f : Nat → α → β) (i j : Nat) (l : List α) :
    (jsMapIdxFrom f i l).get? j = (l.get? j).map (f (i + j)) := by
  induction l generalizing i j with
  | nil => simp [jsMapIdxFrom]
  | cons a l ih =>
    cases j with
    | zero => simp [jsMapIdxFrom]
    | succ j =>
      simp only [jsMapIdxFrom, List.get?_cons_succ, ih (i + 1) j]
      rw [Nat.add_right_comm i 1 j, Nat.add_assoc]

theorem jsMapIdx_get? (f : Nat → α → β) (l : List α) (j : Nat) :
    (jsMapIdx f l).get? j = (l.get? j).map (f j) := by
  simpa using jsMapIdxFrom_get? f 0 j l

/-- C9: With `enable` set to false, every wrapped operation
(getCompilationSettings, getScriptFileNames, resolveModuleNames,
resolveTypeReferenceDirectives, getSemanticDiagnostics,
getCompletionEntryDetails) returns exactly the underlying host
implementation's result on the same arguments. -/
theorem C9_disabled_passthrough (cfg : DenoPluginConfig) (hdis : cfg.enable = false) :
    (∀ projectConfig : CompilerOptions,
        wrappedGetCompilationSettings cfg projectConfig = projectConfig) ∧
    (∀ (hostScriptFileNames : List String) (denoDts : String),
        wrappedGetScriptFileNames cfg hostScriptFileNames denoDts = hostScriptFileNames) ∧
    (∀ (hostResolveModuleNames : List String → String → List (Option TsResolvedModule))
        (resolveOne : String → String → Option ResolvedModule)
        (isAbsolute pathExistsSync : String → Bool)
        (projectRoot : String) (realpath : Option (String → String))
        (moduleNames : List String) (containingFile : String),
        wrappedResolveModuleNames cfg hostResolveModuleNames resolveOne isAbsolute
            pathExistsSync projectRoot realpath moduleNames containingFile
          = hostResolveModuleNames moduleNames containingFile) ∧
    (∀ (β : Type) (hostDirectives : List String → String → List (Option β))
        (resolveOne : String → String → Option ResolvedModule)
        (projectRoot : String) (realpath : Option (String → String))
        (typeDirectiveNames : List String) (containingFile : String),
        wrappedResolveTypeReferenceDirectives cfg hostDirectives resolveOne
            projectRoot realpath typeDirectiveNames containingFile
          = hostDirectives typeDirectiveNames containingFile) ∧
    (∀ hostDiagnostics : List Diagnostic,
        wrappedGetSemanticDiagnostics cfg hostDiagnostics = hostDiagnostics) ∧
    (∀ (normalizeImport : String → String → String)
        (dirname normalizeFilepath : String → String)
        (posixResolve : String → String → String)
        (isAbsolute : String → Bool)
        (cacheUrlFor : String → Option String)
        (fileName : String) (details : Option CompletionEntryDetails),
        wrappedGetCompletionEntryDetails cfg normalizeImport dirname normalizeFilepath
            posixResolve isAbsolute cacheUrlFor fileName details
          = details) := by
  refine ⟨?_, ?_, ?_, ?_, ?_, ?_⟩ <;> intros <;>
    simp [wrappedGetCompilationSettings, wrappedGetScriptFileNames,
      wrappedResolveModuleNames, wrappedResolveTypeReferenceDirectives,
      wrappedGetSemanticDiagnostics, wrappedGetCompletionEntryDetails, hdis]

theorem C9_disabled_passthrough_witness :
    wrappedGetSemanticDiagnostics ⟨false, none⟩ [⟨2691, "no ts import"⟩]
        = [⟨2691, "no ts import"⟩] ∧
    wrappedGetScriptFileNames ⟨false, none⟩ ["/proj/a.ts"] "/ext/lib.deno.d.ts"
        = ["/proj/a.ts"] :=
  ⟨(C9_disabled_passthrough ⟨false, none⟩ rfl).2.2.2.2.1 _,
   (C9_disabled_passthrough ⟨false, none⟩ rfl).2.1 _ _⟩

/-- C10: When the plugin is enabled, the wrapped compilation settings
always carry the fixed overridden values for jsx, module,
moduleResolution, resolveJsonModule, strict, noEmit and noEmitHelpers,
regardless of the project's own configuration. -/
theorem C10_must_overwrite_options (cfg : DenoPluginConfig) (hen : cfg.enable = true)
    (projectConfig : CompilerOptions) :
    (wrappedGetCompilationSettings cfg projectConfig).jsx = some JsxEmit.react ∧
    (wrappedGetCompilationSettings cfg projectConfig).module = some ModuleKind.esnext ∧
    (wrappedGetCompilationSettings cfg projectConfig).moduleResolution
        = some ModuleResolutionKind.nodeJs ∧
    (wrappedGetCompilationSettings cfg projectConfig).resolveJsonModule = some true ∧
    (wrappedGetCompilationSettings cfg projectConfig).strict = some true ∧
    (wrappedGetCompilationSettings cfg projectConfig).noEmit = some true ∧
    (wrappedGetCompilationSettings cfg projectConfig).noEmitHelpers = some true := by
  simp [wrappedGetCompilationSettings, hen, mergeOptions, MUST_OVERWRITE_OPTIONS,
    DEFAULT_OPTIONS, overrideField]

theorem C10_must_overwrite_options_witness :
    (wrappedGetCompilationSettings ⟨true, none⟩
        { jsx := some JsxEmit.preserve, strict := some false }).jsx = some JsxEmit.react ∧
    (wrappedGetCompilationSettings ⟨true, none⟩
        { jsx := some JsxEmit.preserve, strict := some false }).module = some ModuleKind.esnext ∧
    (wrappedGetCompilationSettings ⟨true, none⟩
        { jsx := some JsxEmit.preserve, strict := some false }).moduleResolution
        = some ModuleResolutionKind.nodeJs ∧
    (wrappedGetCompilationSettings ⟨true, none⟩
        { jsx := some JsxEmit.preserve, strict := some false }).resolveJsonModule = some true ∧
    (wrappedGetCompilationSettings ⟨true, none⟩
        { jsx := some JsxEmit.preserve, strict := some false }).strict = some true ∧
    (wrappedGetCompilationSettings ⟨true, none⟩
        { jsx := some JsxEmit.preserve, strict := some false }).noEmit = some true ∧
    (wrappedGetCompilationSettings ⟨true, none⟩
        { jsx := some JsxEmit.preserve, strict := some false }).noEmitHelpers = some true :=
  C10_must_overwrite_options ⟨true, none⟩ rfl
    { jsx := some JsxEmit.preserve, strict := some false }

theorem wrappedResolveModuleNames_length (cfg : DenoPluginConfig)
    (hostResolveModuleNames : List String → String → List (Option TsResolvedModule))
    (resolveOne : String → String → Option ResolvedModule)
    (isAbsolute pathExistsSync : String → Bool)
    (projectRoot : String) (realpath : Option (String → String))
    (moduleNames : List String) (containingFile : String)
    (hHost : ∀ (ns : List String) (cf : String),
        (hostResolveModuleNames ns cf).length = ns.length) :
    (wrappedResolveModuleNames cfg hostResolveModuleNames resolveOne isAbsolute
        pathExistsSync projectRoot realpath moduleNames containingFile).length
      = moduleNames.length := by
  unfold wrappedResolveModuleNames
  by_cases he : cfg.enable = false
  · simp [he, hHost]
  · simp [he, jsMapIdx_length, hHost, resolveModules]

theorem wrappedResolveModuleNames_get? (cfg : DenoPluginConfig)
    (hostOne : String → String → Option TsResolvedModule)
    (resolveOne : String → String → Option ResolvedModule)
    (isAbsolute pathExistsSync : String → Bool)
    (projectRoot : String) (realpath : Option (String → String))
    (moduleNames : List String) (containingFile : String) (j : Nat) :
    (wrappedResolveModuleNames cfg (fun ns cf => ns.map (hostOne cf)) resolveOne
        isAbsolute pathExistsSync projectRoot realpath moduleNames containingFile).get? j
      = (moduleNames.get? j).map
          (denoResolveOneAligned cfg hostOne resolveOne isAbsolute pathExistsSync
            projectRoot realpath containingFile) := by
  unfold wrappedResolveModuleNames denoResolveOneAligned
  cases he : cfg.enable with
  | false => simp [List.get?_map]
  | true =>
    simp only [Bool.true_eq_false, if_false, resolveModules]
    simp only [jsMapIdx_get?, List.get?_map]
    cases hmn : moduleNames.get? j with
    | none => simp
    | some n =>
      simp only [Option.map_some', hmn, Option.some_bind, id_eq, Option.getD_some]
      cases hr : resolveOne (denoRealContainingFile projectRoot realpath containingFile) n with
      | some m =>
        cases hostOne containingFile m.module with
        | some v => simp
        | none => simp
      | none =>
        cases hostOne containingFile n with
        | some v => simp
        | none => simp

/-- C1: For every input list of module specifiers and every containing
file, the wrapped `resolveModuleNames` returns a list whose length equals
the input's length, and the entry at index `i` is the resolution of the
specifier at index `i` (computed by `denoResolveOneAligned` from that
specifier alone). The host is assumed to honor its own contract of
resolving each entry independently (`hHost`). -/
theorem C1_resolveModuleNames_index_aligned (cfg : DenoPluginConfig)
    (hostResolveModuleNames : List String → String → List (Option TsResolvedModule))
    (hostOne : String → String → Option TsResolvedModule)
    (resolveOne : String → String → Option ResolvedModule)
    (isAbsolute pathExistsSync : String → Bool)
    (projectRoot : String) (realpath : Option (String → String))
    (moduleNames : List String) (containingFile : String)
    (hHost : ∀ (ns : List String) (cf : String),
        hostResolveModuleNames ns cf = ns.map (hostOne cf)) :
    (wrappedResolveModuleNames cfg hostResolveModuleNames resolveOne isAbsolute
        pathExistsSync projectRoot realpath moduleNames containingFile).length
      = moduleNames.length ∧
    ∀ j : Nat,
      (wrappedResolveModuleNames cfg hostResolveModuleNames resolveOne isAbsolute
          pathExistsSync projectRoot realpath moduleNames containingFile).get? j
        = (moduleNames.get? j).map
            (denoResolveOneAligned cfg hostOne resolveOne isAbsolute pathExistsSync
              projectRoot realpath containingFile) := by
  have hfun : hostResolveModuleNames = fun ns cf => ns.map (hostOne cf) := by
    funext ns cf
    exact hHost ns cf
  subst hfun
  exact ⟨wrappedResolveModuleNames_length cfg _ resolveOne isAbsolute pathExistsSync
      projectRoot realpath moduleNames containingFile (by intro ns cf; simp),
    fun j => wrappedResolveModuleNames_get? cfg hostOne resolveOne isAbsolute
      pathExistsSync projectRoot realpath moduleNames containingFile j⟩

theorem C1_resolveModuleNames_index_aligned_witness :
    (wrappedResolveModuleNames ⟨true, none⟩
        (fun ns (_ : String) => ns.map (fun _ => (none : Option TsResolvedModule)))
        (fun _ n => if n == "https://deno.land/x/mod.ts" then
            some ⟨"https://deno.land/x/mod.ts", "/cache/deps/https/deno.land/x/mod.ts"⟩
          else none)
        (fun s => s.startsWith "/") (fun _ => true)
        "/proj" none ["./a", "https://deno.land/x/mod.ts"] "/proj/main.ts").length = 2 ∧
    (wrappedResolveModuleNames ⟨true, none⟩
        (fun ns (_ : String) => ns.map (fun _ => (none : Option TsResolvedModule)))
        (fun _ n => if n == "https://deno.land/x/mod.ts" then
            some ⟨"https://deno.land/x/mod.ts", "/cache/deps/https/deno.land/x/mod.ts"⟩
          else none)
        (fun s => s.startsWith "/") (fun _ => true)
        "/proj" none ["./a", "https://deno.land/x/mod.ts"] "/proj/main.ts").get? 1
      = (["./a", "https://deno.land/x/mod.ts"].get? 1).map
          (denoResolveOneAligned ⟨true, none⟩ (fun _ _ => none)
            (fun _ n => if n == "https://deno.land/x/mod.ts" then
                some ⟨"https://deno.land/x/mod.ts", "/cache/deps/https/deno.land/x/mod.ts"⟩
              else none)
            (fun s => s.startsWith "/") (fun _ => true)
            "/proj" none "/proj/main.ts") :=
  ⟨(C1_resolveModuleNames_index_aligned ⟨true, none⟩ _ (fun _ _ => none) _ _ _ "/proj" none
      ["./a", "https://deno.land/x/mod.ts"] "/proj/main.ts" (fun _ _ => rfl)).1,
    (C1_resolveModuleNames_index_aligned ⟨true, none⟩ _ (fun _ _ => none) _ _ _ "/proj" none
      ["./a", "https://deno.land/x/mod.ts"] "/proj/main.ts" (fun _ _ => rfl)).2 1⟩

/-- C6: When the containing file path (after `realpath`) matches the
`untitled:` prefix, the project root directory becomes the effective
containing directory for resolution, in both the `resolveModuleNames`
and the `resolveTypeReferenceDirectives` wrappers: each wrapper computes
exactly what it would compute with the resolver pinned to the project
root. -/
theorem C6_untitled_uses_project_root (cfg : DenoPluginConfig)
    (resolveOne : String → String → Option ResolvedModule)
    (projectRoot : String) (realpath : Option (String → String))
    (containingFile : String)
    (hu : strStartsWith (match realpath with
           | some f => f containingFile
           | none => containingFile) "untitled:" = true) :
    denoRealContainingFile projectRoot realpath containingFile = projectRoot ∧
    (∀ (hostResolveModuleNames : List String → String → List (Option TsResolvedModule))
        (isAbsolute pathExistsSync : String → Bool) (moduleNames : List String),
        wrappedResolveModuleNames cfg hostResolveModuleNames resolveOne isAbsolute
            pathExistsSync projectRoot realpath moduleNames containingFile
          = wrappedResolveModuleNames cfg hostResolveModuleNames
              (fun _ name => resolveOne projectRoot name) isAbsolute
              pathExistsSync projectRoot realpath moduleNames containingFile) ∧
    (∀ (β : Type) (hostDirectives : List String → String → List (Option β))
        (typeDirectiveNames : List String),
        wrappedResolveTypeReferenceDirectives cfg hostDirectives resolveOne
            projectRoot realpath typeDirectiveNames containingFile
          = wrappedResolveTypeReferenceDirectives cfg hostDirectives
              (fun _ name => resolveOne projectRoot name)
              projectRoot realpath typeDirectiveNames containingFile) := by
  have h1 : denoRealContainingFile projectRoot realpath containingFile = projectRoot := by
    simp only [denoRealContainingFile]
    rw [hu]
    simp
  refine ⟨h1, ?_, ?_⟩
  · intro hostResolveModuleNames isAbsolute pathExistsSync moduleNames
    simp [wrappedResolveModuleNames, resolveModules, h1]
  · intro β hostDirectives typeDirectiveNames
    simp [wrappedResolveTypeReferenceDirectives, resolveModules, h1]

theorem C6_untitled_uses_project_root_witness :
    denoRealContainingFile "/proj" none "untitled: ^ Untitled-1" = "/proj" ∧
    wrappedResolveTypeReferenceDirectives ⟨true, none⟩
        (fun ns _ => ns.map (fun _ => (none : Option Unit)))
        (fun dir n => some ⟨n, dir ++ "/" ++ n⟩)
        "/proj" none ["foo"] "untitled: ^ Untitled-1"
      = wrappedResolveTypeReferenceDirectives ⟨true, none⟩
          (fun ns _ => ns.map (fun _ => (none : Option Unit)))
          (fun _ n => some ⟨n, "/proj" ++ "/" ++ n⟩)
          "/proj" none ["foo"] "untitled: ^ Untitled-1" :=
  ⟨(C6_untitled_uses_project_root ⟨true, none⟩ (fun dir n => some ⟨n, dir ++ "/" ++ n⟩)
      "/proj" none "untitled: ^ Untitled-1" (by decide)).1,
    (C6_untitled_uses_project_root ⟨true, none⟩ (fun dir n => some ⟨n, dir ++ "/" ++ n⟩)
      "/proj" none "untitled: ^ Untitled-1" (by decide)).2.2 Unit
      (fun ns _ => ns.map (fun _ => none)) ["foo"]⟩

/-- C8: When the host's default resolution returns undefined at index `j`
but the Deno resolver produced a `ResolvedModule` whose filepath is
absolute and exists on disk, the wrapper returns a resolved module backed
by that local cache file at index `j`; in every other case the host's
result at index `j` is returned unchanged. -/
theorem C8_local_cache_fallback (cfg : DenoPluginConfig)
    (hostResolveModuleNames : List String → String → List (Option TsResolvedModule))
    (hostOne : String → String → Option TsResolvedModule)
    (resolveOne : String → String → Option ResolvedModule)
    (isAbsolute pathExistsSync : String → Bool)
    (projectRoot : String) (realpath : Option (String → String))
    (moduleNames : List String) (containingFile : String)
    (hHost : ∀ (ns : List String) (cf : String),
        hostResolveModuleNames ns cf = ns.map (hostOne cf))
    (hen : cfg.enable = true)
    (j : Nat) (n : String) (hmn : moduleNames.get? j = some n) :
    (∀ m : ResolvedModule,
        resolveOne (denoRealContainingFile projectRoot realpath containingFile) n = some m →
        hostOne containingFile m.module = none →
        (isAbsolute m.filepath && pathExistsSync m.filepath) = true →
        (wrappedResolveModuleNames cfg hostResolveModuleNames resolveOne isAbsolute
            pathExistsSync projectRoot realpath moduleNames containingFile).get? j
          = some (some { extension := TsExtension.js
                         isExternalLibraryImport := false
                         resolvedFileName := m.filepath })) ∧
    (∀ (m : ResolvedModule) (v : TsResolvedModule),
        resolveOne (denoRealContainingFile projectRoot realpath containingFile) n = some m →
        hostOne containingFile m.module = some v →
        (wrappedResolveModuleNames cfg hostResolveModuleNames resolveOne isAbsolute
            pathExistsSync projectRoot realpath moduleNames containingFile).get? j
          = some (some v)) ∧
    (∀ m : ResolvedModule,
        resolveOne (denoRealContainingFile projectRoot realpath containingFile) n = some m →
        hostOne containingFile m.module = none →
        (isAbsolute m.filepath && pathExistsSync m.filepath) = false →
        (wrappedResolveModuleNames cfg hostResolveModuleNames resolveOne isAbsolute
            pathExistsSync projectRoot realpath moduleNames containingFile).get? j
          = some none) ∧
    (resolveOne (denoRealContainingFile projectRoot realpath containingFile) n = none →
        (wrappedResolveModuleNames cfg hostResolveModuleNames resolveOne isAbsolute
            pathExistsSync projectRoot realpath moduleNames containingFile).get? j
          = some (hostOne containingFile n)) := by
  have hfun : hostResolveModuleNames = fun ns cf => ns.map (hostOne cf) := by
    funext ns cf
    exact hHost ns cf
  subst hfun
  have hp := wrappedResolveModuleNames_get? cfg hostOne resolveOne isAbsolute
    pathExistsSync projectRoot realpath moduleNames containingFile j
  rw [hmn] at hp
  refine ⟨?_, ?_, ?_, ?_⟩
  · intro m hr hh hc
    rw [hp]
    simp [denoResolveOneAligned, hen, hr, hh, hc]
  · intro m v hr hh
    rw [hp]
    simp [denoResolveOneAligned, hen, hr, hh]
  · intro m hr hh hc
    rw [hp]
    simp [denoResolveOneAligned, hen, hr, hh, hc]
  · intro hr
    rw [hp]
    cases hh : hostOne containingFile n with
    | some v => simp [denoResolveOneAligned, hen, hr, hh]
    | none => simp [denoResolveOneAligned, hen, hr, hh]

theorem C8_local_cache_fallback_witness :
    (wrappedResolveModuleNames ⟨true, none⟩
        (fun ns (_ : String) => ns.map (fun _ => (none : Option TsResolvedModule)))
        (fun _ _ => some ⟨"https://dev.jspm.io/react", "/cache/deps/https/dev.jspm.io/react"⟩)
        (fun s => strStartsWith s "/") (fun _ => true) "/proj" none
        ["https://dev.jspm.io/react"] "/proj/main.ts").get? 0
      = some (some { extension := TsExtension.js
                     isExternalLibraryImport := false
                     resolvedFileName := "/cache/deps/https/dev.jspm.io/react" }) :=
  (C8_local_cache_fallback ⟨true, none⟩ _ (fun _ _ => none)
      (fun _ _ => some ⟨"https://dev.jspm.io/react", "/cache/deps/https/dev.jspm.io/react"⟩)
      (fun s => strStartsWith s "/") (fun _ => true) "/proj" none
      ["https://dev.jspm.io/react"] "/proj/main.ts" (fun _ _ => rfl) rfl 0
      "https://dev.jspm.io/react" rfl).1
    ⟨"https://dev.jspm.io/react", "/cache/deps/https/dev.jspm.io/react"⟩ rfl rfl (by decide)

/-- C2 counterexample: with a single unresolvable type directive name the
enabled wrapper filters the unresolved entry out and hands the host an
empty list, so the output (the host's per-entry result on that list) has
0 entries instead of one entry per input name: unresolved entries are
dropped, not passed through. -/
theorem C2_counterexample_dropped :
    (wrappedResolveTypeReferenceDirectives ⟨true, none⟩
        (fun ns (_ : String) => ns.map (fun _ => (none : Option Unit)))
        (fun _ _ => none) "/proj" none ["foo"] "/proj/main.ts").length
      ≠ (["foo"] : List String).length := by
  decide

/-- C2 (amended): the enabled `resolveTypeReferenceDirectives` wrapper
drops unresolved entries: the list handed to the host's default resolver
contains only the successfully resolved names, so (for a host resolving
each entry independently) the output has one entry per resolved input
name, which is at most — and possibly fewer than — the number of input
names. -/
theorem C2_amended_filtered (cfg : DenoPluginConfig) {β : Type}
    (hostDirectives : List String → String → List (Option β))
    (hostOne : String → String → Option β)
    (resolveOne : String → String → Option ResolvedModule)
    (projectRoot : String) (realpath : Option (String → String))
    (typeDirectiveNames : List String) (containingFile : String)
    (hHost : ∀ (ns : List String) (cf : String),
        hostDirectives ns cf = ns.map (hostOne cf))
    (hen : cfg.enable = true) :
    (wrappedResolveTypeReferenceDirectives cfg hostDirectives resolveOne
        projectRoot realpath typeDirectiveNames containingFile).length
      = ((typeDirectiveNames.map
            (resolveOne (denoRealContainingFile projectRoot realpath containingFile))).filterMap
          id).length ∧
    ((typeDirectiveNames.map
        (resolveOne (denoRealContainingFile projectRoot realpath containingFile))).filterMap
      id).length ≤ typeDirectiveNames.length := by
  constructor
  · simp [wrappedResolveTypeReferenceDirectives, hen, resolveModules, hHost]
  · calc ((typeDirectiveNames.map
            (resolveOne (denoRealContainingFile projectRoot realpath containingFile))).filterMap
          id).length
        ≤ (typeDirectiveNames.map
            (resolveOne (denoRealContainingFile projectRoot realpath containingFile))).length :=
          List.length_filterMap_le _ _
      _ = typeDirectiveNames.length := List.length_map _ _

theorem C2_amended_filtered_witness :
    (wrappedResolveTypeReferenceDirectives ⟨true, none⟩
        (fun ns (_ : String) => ns.map (fun _ => (none : Option Unit)))
        (fun _ _ => none) "/proj" none ["foo"] "/proj/main.ts").length
      = (((["foo"] : List String).map
            ((fun _ _ => none : String → String → Option ResolvedModule)
              (denoRealContainingFile "/proj" none "/proj/main.ts"))).filterMap id).length ∧
    (((["foo"] : List String).map
        ((fun _ _ => none : String → String → Option ResolvedModule)
          (denoRealContainingFile "/proj" none "/proj/main.ts"))).filterMap id).length
      ≤ (["foo"] : List String).length :=
  C2_amended_filtered ⟨true, none⟩ (fun ns (_ : String) => ns.map (fun _ => (none : Option Unit)))
    (fun _ _ => none) (fun _ _ => none) "/proj" none ["foo"] "/proj/main.ts"
    (fun _ _ => rfl) rfl

/-- C5: for a document whose type-hint scan yields a pragma comment, the
references handler yields exactly one location anchored at (0,0)-(0,0) of
the referenced file's URI when the cursor position lies inside the
comment's content range and the named file exists; it yields no location
when the position is outside the range or when the named file does not
exist. -/
theorem C5_references_pragma (pathExists : String → Bool)
    (c : TypeHintComment) (position : Position) :
    (posInRange position c.contentRange = true → pathExists c.filepath = true →
        onReferences pathExists [c] position
          = [{ uri := fileUri c.filepath
               range := { start := ⟨0, 0⟩, stop := ⟨0, 0⟩ } }]) ∧
    (posInRange position c.contentRange = false →
        onReferences pathExists [c] position = []) ∧
    (pathExists c.filepath = false →
        onReferences pathExists [c] position = []) := by
  refine ⟨?_, ?_, ?_⟩
  · intro h1 h2
    simp [onReferences, h1, h2]
  · intro h1
    simp [onReferences, h1]
  · intro h2
    cases hpr : posInRange position c.contentRange <;> simp [onReferences, hpr, h2]

theorem C5_references_pragma_witness :
    onReferences (fun _ => true)
        [⟨"/proj/types.d.ts", ⟨⟨0, 16⟩, ⟨0, 31⟩⟩⟩] ⟨0, 20⟩
      = [{ uri := fileUri "/proj/types.d.ts"
           range := { start := ⟨0, 0⟩, stop := ⟨0, 0⟩ } }] ∧
    onReferences (fun _ => true)
        [⟨"/proj/types.d.ts", ⟨⟨0, 16⟩, ⟨0, 31⟩⟩⟩] ⟨1, 20⟩ = [] ∧
    onReferences (fun _ => false)
        [⟨"/proj/missing.d.ts", ⟨⟨0, 16⟩, ⟨0, 31⟩⟩⟩] ⟨0, 20⟩ = [] :=
  ⟨(C5_references_pragma (fun _ => true)
      ⟨"/proj/types.d.ts", ⟨⟨0, 16⟩, ⟨0, 31⟩⟩⟩ ⟨0, 20⟩).1 (by decide) rfl,
   (C5_references_pragma (fun _ => true)
      ⟨"/proj/types.d.ts", ⟨⟨0, 16⟩, ⟨0, 31⟩⟩⟩ ⟨1, 20⟩).2.1 (by decide),
   (C5_references_pragma (fun _ => false)
      ⟨"/proj/missing.d.ts", ⟨⟨0, 16⟩, ⟨0, 31⟩⟩⟩ ⟨0, 20⟩).2.2 rfl⟩

theorem foldl_selectStep_some {α : Type} (isMatch : String → Bool)
    (es : List (String × α)) (b : String × α) :
    ∃ p, es.foldl (selectStep isMatch) (some b) = some p ∧
      strLength b.1 ≤ strLength p.1 := by
  induction es generalizing b with
  | nil => exact ⟨b, rfl, le_refl _⟩
  | cons e es ih =>
    rw [List.foldl_cons]
    cases hm : isMatch e.1 with
    | false =>
      obtain ⟨p, hp, hle⟩ := ih b
      exact ⟨p, by simp [selectStep, hm, hp], hle⟩
    | true =>
      by_cases hl : strLength e.1 > strLength b.1
      · obtain ⟨p, hp, hle⟩ := ih e
        exact ⟨p, by simp [selectStep, hm, hl, hp], le_trans (le_of_lt hl) hle⟩
      · obtain ⟨p, hp, hle⟩ := ih b
        exact ⟨p, by simp [selectStep, hm, hl, hp], hle⟩

theorem foldl_selectStep_invariant {α : Type} (isMatch : String → Bool)
    (P : String × α → Prop) :
    ∀ (es : List (String × α)) (acc : Option (String × α)),
      (∀ e ∈ es, P e) →
      (∀ q, acc = some q → P q ∧ isMatch q.1 = true) →
      ∀ p, es.foldl (selectStep isMatch) acc = some p → P p ∧ isMatch p.1 = true := by
  intro es
  induction es with
  | nil =>
    intro acc _ hacc p hp
    exact hacc p hp
  | cons e es ih =>
    intro acc hes hacc p hp
    rw [List.foldl_cons] at hp
    refine ih (selectStep isMatch acc e)
      (fun x hx => hes x (List.mem_cons_of_mem _ hx)) ?_ p hp
    intro q hq
    have he : P e := hes e (List.mem_cons_self _ _)
    unfold selectStep at hq
    cases hm : isMatch e.1 with
    | false =>
      rw [hm] at hq
      simp only [Bool.false_eq_true, if_false] at hq
      exact hacc q hq
    | true =>
      rw [hm] at hq
      simp only [if_true] at hq
      cases acc with
      | none =>
        simp only [Option.some.injEq] at hq
        subst hq
        exact ⟨he, hm⟩
      | some b =>
        dsimp only at hq
        by_cases hl : strLength e.1 > strLength b.1
        · rw [if_pos hl] at hq
          simp only [Option.some.injEq] at hq
          subst hq
          exact ⟨he, hm⟩
        · rw [if_neg hl] at hq
          exact hacc q hq

theorem foldl_selectStep_dominates {α : Type} (isMatch : String → Bool) :
    ∀ (es : List (String × α)) (acc : Option (String × α)) (e : String × α),
      e ∈ es → isMatch e.1 = true →
      ∃ p, es.foldl (selectStep isMatch) acc = some p ∧
        strLength e.1 ≤ strLength p.1 := by
  intro es
  induction es with
  | nil =>
    intro acc e he
    cases he
  | cons a es ih =>
    intro acc e he hm
    rw [List.foldl_cons]
    rcases List.mem_cons.mp he with heq | hmem
    · subst heq
      have hstep : ∃ c, selectStep isMatch acc e = some c ∧
          strLength e.1 ≤ strLength c.1 := by
        unfold selectStep
        rw [hm]
        simp only [if_true]
        cases acc with
        | none => exact ⟨e, rfl, le_refl _⟩
        | some b =>
          dsimp only
          by_cases hl : strLength e.1 > strLength b.1
          · exact ⟨e, by rw [if_pos hl], le_refl _⟩
          · exact ⟨b, by rw [if_neg hl], le_of_not_lt hl⟩
      obtain ⟨c, hc, hce⟩ := hstep
      rw [hc]
      obtain ⟨p, hp, hcp⟩ := foldl_selectStep_some isMatch es c
      exact ⟨p, hp, le_trans hce hcp⟩
    · exact ih (selectStep isMatch acc a) e hmem hm

/-- C3: Import-map selection — for scope matching against the referrer
and for key matching against the specifier alike — always picks a
matching entry of maximal key length, with ties broken in favor of the
first-declared entry; in particular, with
`imports = \x7b"a/": "/x/", "a/b": "/y"\x7d`, resolving `"a/b"` yields `/y`
and resolving `"a/c"` yields `/x/c`, and a scoped mapping beats the
top-level one exactly when the scope prefix matches the referrer. -/
theorem C3_longest_prefix_precedence :
    (∀ (α : Type) (isMatch : String → Bool) (entries : List (String × α))
        (p : String × α),
        selectLongestMatch isMatch entries = some p →
          isMatch p.1 = true ∧ p ∈ entries ∧
          ∀ e ∈ entries, isMatch e.1 = true → strLength e.1 ≤ strLength p.1) ∧
    resolveAgainstEntries [("a/", "/x/"), ("a/b", "/y")] "a/b" = some "/y" ∧
    resolveAgainstEntries [("a/", "/x/"), ("a/b", "/y")] "a/c" = some "/x/c" ∧
    selectLongestMatch (fun k => keyMatches k "a/x") [("a/", "/first/"), ("a/", "/second/")]
      = some ("a/", "/first/") ∧
    resolveWithImportMap ⟨[("a", "/top")], [("/pkg/", [("a", "/scoped")])]⟩ "a" "/pkg/mod.ts"
      = some "/scoped" ∧
    resolveWithImportMap ⟨[("a", "/top")], [("/pkg/", [("a", "/scoped")])]⟩ "a" "/other/mod.ts"
      = some "/top" := by
  refine ⟨?_, by decide, by decide, by decide, by decide, by decide⟩
  intro α isMatch entries p hp
  rw [selectLongestMatch] at hp
  have hmain := foldl_selectStep_invariant isMatch (fun e => e ∈ entries) entries
    none (fun e he => he) (fun q hq => by cases hq) p hp
  refine ⟨hmain.2, hmain.1, ?_⟩
  intro e he hm
  obtain ⟨p', hp', hle⟩ := foldl_selectStep_dominates isMatch entries none e he hm
  rw [hp] at hp'
  cases hp'
  exact hle

theorem C3_longest_prefix_precedence_witness :
    keyMatches "a/b" "a/b" = true ∧
    ("a/b", "/y") ∈ ([("a/", "/x/"), ("a/b", "/y")] : List (String × String)) ∧
    strLength "a/" ≤ strLength "a/b" :=
  have h := C3_longest_prefix_precedence.1 String (fun k => keyMatches k "a/b")
    [("a/", "/x/"), ("a/b", "/y")] ("a/b", "/y") (by decide)
  ⟨h.1, h.2.1, h.2.2 ("a/", "/x/") (by decide) (by decide)⟩

/-- C4: The cache path mapping is total on accepted URLs and injective
(no two distinct accepted URLs share a path), and `pathToUrl` exactly
inverts `urlToPath` on every accepted URL. -/
theorem C4_cache_path_bijective (u v : RemoteUrl) :
    (acceptsUrl u = true → pathToUrl (urlToPath u) = some u) ∧
    (acceptsUrl u = true → acceptsUrl v = true → urlToPath u = urlToPath v → u = v) := by
  constructor
  · intro hu
    rw [acceptsUrl] at hu
    simp [urlToPath, pathToUrl, hu]
  · intro _ _ h
    simp only [urlToPath, List.cons.injEq] at h
    obtain ⟨h1, h2, h3⟩ := h
    cases u
    cases v
    simp_all

theorem C4_cache_path_bijective_witness :
    pathToUrl (urlToPath ⟨"https", "deno.land", ["std", "http", "server.ts"]⟩)
      = some ⟨"https", "deno.land", ["std", "http", "server.ts"]⟩ :=
  (C4_cache_path_bijective ⟨"https", "deno.land", ["std", "http", "server.ts"]⟩
    ⟨"https", "deno.land", ["std", "http", "server.ts"]⟩).1 (by decide)

/-- C7: Loading an import map from a missing or malformed file (`none`),
from JSON whose top level is not an object, or from an object whose
`imports`/`scopes` key fails the expected shape, yields the empty import
map — `loadImportMap` is total, so no failure ever propagates to the
caller — and with the empty map every bare specifier resolves as
unresolved (`none`) rather than producing an error. -/
theorem C7_malformed_map_degrades (j : Json) (fields : List (String × Json))
    (s r : String) :
    loadImportMap none = emptyImportMap ∧
    (Json.isObj j = false → loadImportMap (some j) = emptyImportMap) ∧
    (asObjField fields "imports" = none ∨ asObjField fields "scopes" = none →
        loadImportMap (some (Json.obj fields)) = emptyImportMap) ∧
    (classify s = SpecifierKind.bare → resolveWithImportMap emptyImportMap s r = none) := by
  refine ⟨rfl, ?_, ?_, fun _ => rfl⟩
  · intro h
    cases j <;> simp_all [Json.isObj, loadImportMap]
  · intro h
    rcases h with h | h
    · simp [loadImportMap, h]
    · cases hi : asObjField fields "imports" <;> simp [loadImportMap, h, hi]

theorem C7_malformed_map_degrades_witness :
    loadImportMap (some (Json.arr [])) = emptyImportMap ∧
    loadImportMap (some (Json.obj [("imports", Json.num 1)])) = emptyImportMap ∧
    resolveWithImportMap emptyImportMap "lodash" "/proj/a.ts" = none :=
  ⟨(C7_malformed_map_degrades (Json.arr []) [] "lodash" "/proj/a.ts").2.1 rfl,
   (C7_malformed_map_degrades (Json.arr []) [("imports", Json.num 1)] "lodash"
      "/proj/a.ts").2.2.1 (Or.inl rfl),
   (C7_malformed_map_degrades (Json.arr []) [] "lodash" "/proj/a.ts").2.2.2 (by decide)⟩

end VscodeDeno
